import Mathlib

/-!
Verification of the port allocation/lifecycle engine of the
Grafana-Porto repository (grafana/streaming.py, grafana/vessel.py).

The Python simulator is shallowly embedded: timestamps are integers
(seconds), every `random.*` draw is an explicit natural-number
parameter, the PostgreSQL tables (`berths`, `vessels`, `vessel_queue`,
`operations`) are lists of records inside a `SimState`, and each SQL
statement becomes a pure list transformation.  The psycopg2
commit/rollback discipline of `allocate_ships_to_berths` is modelled by
an explicit write log together with a transactional runner.
-/

/-- Status column of the `berths` table. -/
inductive BerthStatus
  | available
  | occupied
  | maintenance
deriving DecidableEq, Repr

/-- Status column of the `vessel_queue` table. -/
inductive QueueStatus
  | waiting
  | in_service
  | completed
deriving DecidableEq, Repr

/-- Status column of the `operations` table. -/
inductive OpStatus
  | in_progress
  | completed
deriving DecidableEq, Repr

/-- A row of the `berths` table. -/
structure Berth where
  berth_id : Nat
  berth_number : Nat
  status : BerthStatus
  start_maintenance : Option Int
  end_maintenance : Option Int
  updated_at : Int
deriving DecidableEq, Repr

/-- A row of the `vessels` table. -/
structure Vessel where
  vessel_id : Nat
  vessel_name : String
  vessel_type : String
  priority : Nat
  estimated_duration : Nat
deriving DecidableEq, Repr

/-- A row of the `vessel_queue` table. -/
structure QueueEntry where
  vessel_id : Nat
  arrival_time : Int
  status : QueueStatus
  start_service_time : Option Int
  end_service_time : Option Int
deriving DecidableEq, Repr

/-- A row of the `operations` table. -/
structure Operation where
  operation_id : Nat
  vessel_id : Nat
  berth_id : Nat
  start_time : Int
  end_time : Int
  planned_duration : Nat
  status : OpStatus
  actual_duration : Option Int
deriving DecidableEq, Repr

/-- The database plus the mutable `PortDataSimulator` attributes that the
allocation logic reads (`self.duration_seconds` is the attribute set by
`insert_vessel_to_db` and read by `allocate_ships_to_berths`). -/
structure SimState where
  berths : List Berth
  vessels : List Vessel
  queue : List QueueEntry
  operations : List Operation
  duration_seconds : Nat
  next_vessel_id : Nat
  next_operation_id : Nat
deriving DecidableEq, Repr

/-- `random.randint(lo, hi)` (both ends inclusive), with the random draw
made explicit. -/
def randint (lo hi draw : Nat) : Nat := lo + draw % (hi + 1 - lo)

/-- The vessel descriptor produced by `generate_ship_data`. -/
structure ShipData where
  name : String
  stype : String
  priority : Nat
  service_duration : Nat
  operation_type : String
  customs_status : String
  arrival_time : Int
deriving DecidableEq, Repr

/-- A row of the `ship_types` table of `generate_ship_data`:
name, priority, duration range (unused by the function body), operation. -/
structure ShipTypeRow where
  tname : String
  tpriority : Nat
  dur_lo : Nat
  dur_hi : Nat
  toperation : String
deriving DecidableEq, Repr

/-- The `ship_types` list of `PortDataSimulator.generate_ship_data`. -/
def ship_types : List ShipTypeRow :=
  [⟨"Cargueiro", 1, 30, 60, "import"⟩,
   ⟨"Porta-Container", 2, 40, 80, "import"⟩,
   ⟨"Tanker", 3, 50, 90, "import"⟩,
   ⟨"Bulk Carrier", 1, 3, 70, "export"⟩,
   ⟨"RoRo", 2, 20, 40, "export"⟩,
   ⟨"Frigorífico", 3, 45, 55, "import"⟩]

def ship_name_pfx : List String := ["MV", "MS", "MT", "SS"]

def ship_name_pool : List String :=
  ["Atlantic", "Pacific", "Mediterranean", "Baltic", "Nordic", "Iberian",
   "Phoenix", "Titan", "Neptune", "Poseidon", "Explorer", "Navigator"]

def customs_pool : List String := ["pending", "under_review", "approved"]

/-- `PortDataSimulator.generate_ship_data`.  `counter` is
`self.ship_counter` after the increment; the `*Draw` arguments stand for
the `random.choice` / `random.randint` / `random.choices` draws.  Note
that `service_duration` is `random.randint(45, 120)` seconds,
independent of the chosen ship type, and that `arrival_time` is backdated
by `random.randint(5, 120)` minutes. -/
def generate_ship_data (now : Int) (counter : Nat)
    (typeDraw durDraw pfxDraw nameDraw customsDraw arrDraw : Nat) : ShipData :=
  let row := ship_types.getD (typeDraw % ship_types.length) ⟨"Cargueiro", 1, 30, 60, "import"⟩
  { name := ship_name_pfx.getD (pfxDraw % ship_name_pfx.length) "MV" ++ " " ++
      ship_name_pool.getD (nameDraw % ship_name_pool.length) "Atlantic" ++ " " ++ toString counter
    stype := row.tname
    priority := row.tpriority
    service_duration := randint 45 120 durDraw
    operation_type := row.toperation
    customs_status := customs_pool.getD (customsDraw % customs_pool.length) "approved"
    arrival_time := now - 60 * (randint 5 120 arrDraw : Int) }

/-- `PortDataSimulator.insert_vessel_to_db`: inserts the vessel and its
waiting queue entry, and overwrites the simulator attribute
`self.duration_seconds` with this (the most recently inserted) vessel's
duration. -/
def insert_vessel_to_db (s : SimState) (sd : ShipData) : SimState :=
  let vid := s.next_vessel_id
  { s with
    duration_seconds := sd.service_duration
    vessels := s.vessels ++ [⟨vid, sd.name, sd.stype, sd.priority, sd.service_duration⟩]
    queue := s.queue ++ [⟨vid, sd.arrival_time, QueueStatus.waiting, none, none⟩]
    next_vessel_id := vid + 1 }

/-- The `SERVICE_HOURS` per-type ranges of `grafana/vessel.py`. -/
def SERVICE_HOURS : List (String × Nat × Nat) :=
  [("Container", 8, 16), ("Tanker", 6, 12), ("Carga Geral", 12, 24)]

/-- `SERVICE_HOURS.get(ship_type, (8, 16))`. -/
def service_hours_lookup (t : String) : Nat × Nat :=
  match SERVICE_HOURS.find? (fun r => decide (r.1 = t)) with
  | some r => r.2
  | none => (8, 16)

/-- `VesselGenerator.get_realistic_service_hours` of `grafana/vessel.py`:
draws an hour count from the per-type range (the timedelta construction
is commented out in the source; the bare `random.randint` is returned). -/
def get_realistic_service_hours (t : String) (draw : Nat) : Nat :=
  let r := service_hours_lookup t
  randint r.1 r.2 draw

/-- Boolean test for a waiting queue row (`status = 'waiting'`). -/
def isWaiting (e : QueueEntry) : Bool := decide (e.status = QueueStatus.waiting)

/-- Boolean test for an in-service queue row (`status = 'in_service'`). -/
def isInService (e : QueueEntry) : Bool := decide (e.status = QueueStatus.in_service)

/-- Boolean test for an available berth (`status = 'available'`). -/
def isAvailable (b : Berth) : Bool := decide (b.status = BerthStatus.available)

def waitingCount (s : SimState) : Nat := s.queue.countP isWaiting

def inServiceCount (s : SimState) : Nat := s.queue.countP isInService

/-- `SELECT ... FROM berths WHERE status = 'available'`. -/
def availableIds (s : SimState) : List Nat :=
  (s.berths.filter isAvailable).map (fun b => b.berth_id)

def availableCount (s : SimState) : Nat := (s.berths.filter isAvailable).length

/-- One row of the allocator's candidate query, joining `vessel_queue`
with `vessels`. -/
structure QRow where
  vessel_id : Nat
  priority : Nat
  estimated_duration : Nat
  arrival_time : Int
deriving DecidableEq, Repr

/-- The contribution of one queue row to the join
`vessel_queue JOIN vessels ... WHERE vq.status = 'waiting'`. -/
def joinRow (vessels : List Vessel) (e : QueueEntry) : Option QRow :=
  if e.status = QueueStatus.waiting then
    (vessels.find? (fun v => decide (v.vessel_id = e.vessel_id))).map
      (fun v => ⟨e.vessel_id, v.priority, v.estimated_duration, e.arrival_time⟩)
  else none

/-- The allocator's candidate set: waiting queue rows joined with their
vessels. -/
def joinWaiting (s : SimState) : List QRow := s.queue.filterMap (joinRow s.vessels)

/-- Strict comparison realising `ORDER BY v.priority DESC, vq.arrival_time ASC`:
`better a b` holds when `a` must come strictly before `b`. -/
def better (a b : QRow) : Bool :=
  decide (b.priority < a.priority ∨ (a.priority = b.priority ∧ a.arrival_time < b.arrival_time))

/-- Non-strict version of the candidate order. -/
def rowLe (a b : QRow) : Prop :=
  b.priority < a.priority ∨ (a.priority = b.priority ∧ a.arrival_time ≤ b.arrival_time)

/-- `ORDER BY v.priority DESC, vq.arrival_time ASC LIMIT 1`: the first
minimal row of the candidate list. -/
def selectHead : List QRow → Option QRow
  | [] => none
  | r :: rs =>
    match selectHead rs with
    | none => some r
    | some m => if better m r then some m else some r

/-- `UPDATE vessel_queue SET start_service_time = t, status = 'in_service'
WHERE vessel_id = vid`, applied to one row. -/
def markFun (t : Int) (vid : Nat) (e : QueueEntry) : QueueEntry :=
  if e.vessel_id = vid then
    { e with status := QueueStatus.in_service, start_service_time := some t }
  else e

/-- `UPDATE berths SET status = 'occupied', updated_at = t
WHERE berth_id = bid`, applied to one row. -/
def occFun (t : Int) (bid : Nat) (b : Berth) : Berth :=
  if b.berth_id = bid then { b with status := BerthStatus.occupied, updated_at := t } else b

/-- The `INSERT INTO operations` row created for one binding: the end
timestamp and the planned duration both come from `self.duration_seconds`,
not from the selected vessel's `estimated_duration`. -/
def mkOp (oid : Nat) (now : Int) (dur : Nat) (bid : Nat) (m : QRow) : Operation :=
  { operation_id := oid
    vessel_id := m.vessel_id
    berth_id := bid
    start_time := now
    end_time := now + (dur : Int)
    planned_duration := dur
    status := OpStatus.in_progress
    actual_duration := none }

/-- The three writes of one loop iteration of `allocate_ships_to_berths`,
applied to the state. -/
def applyBinding (now : Int) (dur : Nat) (bid : Nat) (m : QRow) (s : SimState) : SimState :=
  { s with
    queue := s.queue.map (markFun now m.vessel_id)
    berths := s.berths.map (occFun now bid)
    operations := s.operations ++ [mkOp s.next_operation_id now dur bid m]
    next_operation_id := s.next_operation_id + 1 }

/-- The `for berth_id, berth_number in available_berths:` loop.  Besides
the final state it returns the selection log: which candidate row was
bound to which berth, in order. -/
def allocLoop (now : Int) (dur : Nat) : List Nat → SimState → SimState × List (Nat × QRow)
  | [], s => (s, [])
  | bid :: rest, s =>
    match selectHead (joinWaiting s) with
    | none => allocLoop now dur rest s
    | some m =>
      let r := allocLoop now dur rest (applyBinding now dur bid m s)
      (r.1, (bid, m) :: r.2)

/-- `PortDataSimulator.allocate_ships_to_berths`, with the selection log
exposed. -/
def allocate_pass (now : Int) (s : SimState) : SimState × List (Nat × QRow) :=
  if waitingCount s = 0 then (s, [])
  else allocLoop now s.duration_seconds (availableIds s) s

/-- `PortDataSimulator.allocate_ships_to_berths`. -/
def allocate_ships_to_berths (now : Int) (s : SimState) : SimState :=
  (allocate_pass now s).1

/-- The operations rows added by one allocation pass. -/
def newOperations (now : Int) (s : SimState) : List Operation :=
  (allocate_ships_to_berths now s).operations.drop s.operations.length

/-- `UPDATE operations SET status = 'completed', actual_duration = now - c.start_time
WHERE operation_id = c.operation_id`, applied to one row (`c` is the row
fetched by the finalization scan). -/
def finOpFun (now : Int) (c : Operation) (o : Operation) : Operation :=
  if o.operation_id = c.operation_id then
    { o with status := OpStatus.completed, actual_duration := some (now - c.start_time) }
  else o

/-- `UPDATE berths SET status = 'available', updated_at = now
WHERE berth_id = bid`, applied to one row. -/
def freeBerthFun (now : Int) (bid : Nat) (b : Berth) : Berth :=
  if b.berth_id = bid then { b with status := BerthStatus.available, updated_at := now } else b

/-- `UPDATE vessel_queue SET status = 'completed', end_service_time = now
WHERE vessel_id = vid`, applied to one row. -/
def finQueueFun (now : Int) (vid : Nat) (e : QueueEntry) : QueueEntry :=
  if e.vessel_id = vid then
    { e with status := QueueStatus.completed, end_service_time := some now }
  else e

/-- The three updates performed for one completed operation inside
`update_ongoing_operations`. -/
def finalizeOne (now : Int) (st : SimState) (c : Operation) : SimState :=
  { st with
    operations := st.operations.map (finOpFun now c)
    berths := st.berths.map (freeBerthFun now c.berth_id)
    queue := st.queue.map (finQueueFun now c.vessel_id) }

/-- `SELECT ... FROM operations WHERE status = 'in_progress' AND end_time <= now`. -/
def dueOperations (now : Int) (s : SimState) : List Operation :=
  s.operations.filter (fun o => decide (o.status = OpStatus.in_progress ∧ o.end_time ≤ now))

/-- `PortDataSimulator.update_ongoing_operations`. -/
def update_ongoing_operations (now : Int) (s : SimState) : SimState :=
  (dueOperations now s).foldl (finalizeOne now) s

/-- The efficiency value logged by `update_ongoing_operations`:
`round((planned_duration / actual_duration) * 100, 2) if actual_duration > 0 else 0`.
Python's two-decimal float rounding is modelled as exact rational rounding. -/
def op_efficiency (planned actual : Nat) : ℚ :=
  if 0 < actual then (round (((planned : ℚ) / (actual : ℚ)) * 100 * 100) : ℚ) / 100 else 0

/-- `PortDataSimulator.release_maintenance_berths`:
`UPDATE berths SET status='available', ... WHERE status='maintenance' AND end_maintenance <= now`. -/
def release_maintenance_berths (now : Int) (s : SimState) : SimState :=
  { s with
    berths := s.berths.map (fun b =>
      if b.status = BerthStatus.maintenance ∧ b.end_maintenance.any (fun t => decide (t ≤ now)) = true then
        { b with status := BerthStatus.available
                 updated_at := now
                 start_maintenance := none
                 end_maintenance := none }
      else b) }

def defaultBerth : Berth :=
  { berth_id := 0, berth_number := 0, status := BerthStatus.available,
    start_maintenance := none, end_maintenance := none, updated_at := 0 }

/-- `PortDataSimulator.simulate_maintenance_event`.  The
`ORDER BY RANDOM() LIMIT 1` pick over the available berths is modelled by
the draw selecting one index of the filtered list; the update keeps the
source's `WHERE berth_id = %s AND status = 'available'` guard.  The
5–10 minute window is converted to seconds. -/
def simulate_maintenance_event (now : Int) (draw durDraw : Nat) (s : SimState) : SimState :=
  let avail := s.berths.filter isAvailable
  if avail.isEmpty then s
  else
    let chosen := avail.getD (draw % avail.length) defaultBerth
    let dur := randint 5 10 durDraw
    { s with
      berths := s.berths.map (fun b2 =>
        if b2.berth_id = chosen.berth_id ∧ b2.status = BerthStatus.available then
          { b2 with status := BerthStatus.maintenance
                    start_maintenance := some now
                    end_maintenance := some (now + 60 * (dur : Int))
                    updated_at := now }
        else b2) }

/-- The five kinds of step of the body of `simulate_real_time_data`. -/
inductive TickStep
  | spawn_vessel
  | finalize_operations
  | release_maintenance
  | allocate
  | start_maintenance
deriving DecidableEq, Repr

/-- The per-tick step sequence actually executed by the body of the
`while True:` loop of `simulate_real_time_data`: a 60% spawn draw
(`random.choices([0,1], weights=[40,60]) == 0`), then
`update_ongoing_operations`, then `release_maintenance_berths`, then
`allocate_ships_to_berths`, then a 30% maintenance draw. -/
def tick_step_order (spawnDraw maintDraw : Bool) : List TickStep :=
  (if spawnDraw then [TickStep.spawn_vessel] else []) ++
  [TickStep.finalize_operations, TickStep.release_maintenance, TickStep.allocate] ++
  (if maintDraw then [TickStep.start_maintenance] else [])

/-- The per-tick order asserted by the specification:
release-maintenance, finalize, allocate, maybe-start-maintenance,
maybe-spawn-vessel. -/
def spec_claimed_order : List TickStep :=
  [TickStep.release_maintenance, TickStep.finalize_operations, TickStep.allocate,
   TickStep.start_maintenance, TickStep.spawn_vessel]

/-- One provisional write issued inside the allocation transaction
(`cursor.execute` before the final `commit`). -/
inductive TxWrite
  | queueUpdate (vid : Nat) (t : Int)
  | berthUpdate (bid : Nat) (t : Int)
  | opInsert (op : Operation)
deriving DecidableEq, Repr

/-- Effect of one provisional write once committed. -/
def applyWrite (s : SimState) : TxWrite → SimState
  | TxWrite.queueUpdate vid t => { s with queue := s.queue.map (markFun t vid) }
  | TxWrite.berthUpdate bid t => { s with berths := s.berths.map (occFun t bid) }
  | TxWrite.opInsert op =>
      { s with operations := s.operations ++ [op]
               next_operation_id := s.next_operation_id + 1 }

/-- The write log emitted by the allocation loop.  Each selected binding
emits its queue update, berth update and operation insert in source
order; the selection query of later iterations sees the provisional
writes (same cursor, same transaction). -/
def allocTxLoop (now : Int) (dur : Nat) : List Nat → SimState → List TxWrite
  | [], _ => []
  | bid :: rest, s =>
    match selectHead (joinWaiting s) with
    | none => allocTxLoop now dur rest s
    | some m =>
      let ws := [TxWrite.queueUpdate m.vessel_id now, TxWrite.berthUpdate bid now,
        TxWrite.opInsert (mkOp s.next_operation_id now dur bid m)]
      ws ++ allocTxLoop now dur rest (ws.foldl applyWrite s)

/-- The write log of one call of `allocate_ships_to_berths`. -/
def allocate_tx (now : Int) (s : SimState) : List TxWrite :=
  if waitingCount s = 0 then []
  else allocTxLoop now s.duration_seconds (availableIds s) s

/-- psycopg2 transaction semantics of the allocator: on any exception the
`except` branch calls `rollback()`, discarding every provisional write of
the pass; otherwise `commit()` applies them all. -/
def run_transaction (s : SimState) (ws : List TxWrite) (failed : Bool) : SimState :=
  if failed then s else ws.foldl applyWrite s

/-! ### Generic list helpers -/

lemma countP_congr_mem {α : Type} (l : List α) (p q : α → Bool)
    (h : ∀ x ∈ l, p x = q x) : l.countP p = l.countP q := by
  induction l with
  | nil => rfl
  | cons a l ih =>
    rw [List.countP_cons, List.countP_cons, h a (List.mem_cons_self a l),
      ih (fun x hx => h x (List.mem_cons_of_mem a hx))]

lemma countP_or_disjoint {α : Type} (l : List α) (p q : α → Bool)
    (h : ∀ x ∈ l, ¬(p x = true ∧ q x = true)) :
    l.countP (fun x => p x || q x) = l.countP p + l.countP q := by
  induction l with
  | nil => rfl
  | cons a l ih =>
    rw [List.countP_cons, List.countP_cons, List.countP_cons,
      ih (fun x hx => h x (List.mem_cons_of_mem a hx))]
    have ha := h a (List.mem_cons_self a l)
    by_cases hp : p a = true <;> by_cases hq : q a = true <;>
      simp [hp, hq] at ha ⊢ <;> omega

lemma eq_of_nodup_map_eq {α β : Type} [DecidableEq β] {l : List α} {f : α → β}
    (hl : (l.map f).Nodup) {a b : α} (ha : a ∈ l) (hb : b ∈ l) (hf : f a = f b) : a = b :=
  List.inj_on_of_nodup_map hl ha hb hf

lemma countP_eq_one_of_nodup_map {α β : Type} [DecidableEq β] (l : List α) (f : α → β)
    (hl : (l.map f).Nodup) (a : α) (ha : a ∈ l) :
    l.countP (fun x => decide (f x = f a)) = 1 := by
  induction l with
  | nil => cases ha
  | cons b l ih =>
    rw [List.countP_cons]
    rw [List.map_cons, List.nodup_cons] at hl
    rcases List.mem_cons.mp ha with rfl | ha'
    · have hz : l.countP (fun x => decide (f x = f a)) = 0 := by
        rw [List.countP_eq_zero]
        intro x hx
        simp only [decide_eq_true_eq]
        intro hxa
        exact hl.1 (hxa ▸ List.mem_map_of_mem f hx)
      simp [hz]
    · have hne : ¬ f b = f a := by
        intro hba
        exact hl.1 (hba ▸ List.mem_map_of_mem f ha')
      rw [ih hl.2 ha']
      simp [hne]

/-! ### The candidate order realised by `ORDER BY priority DESC, arrival ASC` -/

lemma rowLe_refl (a : QRow) : rowLe a a := by unfold rowLe; omega

lemma rowLe_trans {a b c : QRow} (h1 : rowLe a b) (h2 : rowLe b c) : rowLe a c := by
  unfold rowLe at *; omega

lemma better_imp_rowLe {a b : QRow} (h : better a b = true) : rowLe a b := by
  unfold better at h
  rw [decide_eq_true_eq] at h
  unfold rowLe; omega

lemma not_better_imp_rowLe {a b : QRow} (h : better a b = false) : rowLe b a := by
  unfold better at h
  rw [decide_eq_false_iff_not] at h
  unfold rowLe; omega

lemma selectHead_none {l : List QRow} (h : selectHead l = none) : l = [] := by
  cases l with
  | nil => rfl
  | cons r rs =>
    exfalso
    unfold selectHead at h
    cases h' : selectHead rs with
    | none =>
      simp only [h'] at h
      exact Option.noConfusion h
    | some m =>
      simp only [h'] at h
      by_cases hb : better m r = true <;> simp [hb] at h

lemma selectHead_mem {l : List QRow} {m : QRow} (h : selectHead l = some m) : m ∈ l := by
  induction l generalizing m with
  | nil => cases h
  | cons r rs ih =>
    unfold selectHead at h
    cases h' : selectHead rs with
    | none =>
      simp only [h'] at h
      cases h
      exact List.mem_cons_self r rs
    | some m' =>
      simp only [h'] at h
      by_cases hb : better m' r = true
      · rw [if_pos hb] at h
        cases h
        exact List.mem_cons_of_mem r (ih h')
      · rw [if_neg hb] at h
        cases h
        exact List.mem_cons_self r rs

lemma selectHead_min {l : List QRow} {m : QRow} (h : selectHead l = some m) :
    ∀ x ∈ l, rowLe m x := by
  induction l generalizing m with
  | nil => intro x hx; cases hx
  | cons r rs ih =>
    unfold selectHead at h
    cases h' : selectHead rs with
    | none =>
      simp only [h'] at h
      cases h
      intro x hx
      rcases List.mem_cons.mp hx with rfl | hx'
      · exact rowLe_refl x
      · rw [selectHead_none h'] at hx'; cases hx'
    | some m' =>
      simp only [h'] at h
      by_cases hb : better m' r = true
      · rw [if_pos hb] at h
        cases h
        intro x hx
        rcases List.mem_cons.mp hx with rfl | hx'
        · exact better_imp_rowLe hb
        · exact ih h' x hx'
      · rw [if_neg hb] at h
        cases h
        intro x hx
        rcases List.mem_cons.mp hx with rfl | hx'
        · exact rowLe_refl x
        · exact rowLe_trans (not_better_imp_rowLe (Bool.eq_false_iff.mpr hb)) (ih h' x hx')

/-! ### Properties of the candidate join -/

lemma joinRow_vid {vs : List Vessel} {e : QueueEntry} {r : QRow}
    (h : joinRow vs e = some r) : r.vessel_id = e.vessel_id := by
  unfold joinRow at h
  split at h
  · cases hf : vs.find? (fun v => decide (v.vessel_id = e.vessel_id)) with
    | none => rw [hf] at h; cases h
    | some v =>
      rw [hf] at h
      cases h
      rfl
  · cases h

lemma joinRow_waiting {vs : List Vessel} {e : QueueEntry} {r : QRow}
    (h : joinRow vs e = some r) : e.status = QueueStatus.waiting := by
  unfold joinRow at h
  split at h
  · assumption
  · cases h

lemma mem_joinWaiting {s : SimState} {r : QRow} (h : r ∈ joinWaiting s) :
    ∃ e ∈ s.queue, e.status = QueueStatus.waiting ∧ e.vessel_id = r.vessel_id := by
  obtain ⟨e, he, hj⟩ := List.mem_filterMap.mp h
  exact ⟨e, he, joinRow_waiting hj, (joinRow_vid hj).symm⟩

lemma joinRow_markFun (vs : List Vessel) (t : Int) (vid : Nat) (e : QueueEntry) :
    joinRow vs (markFun t vid e) =
      if e.vessel_id = vid then none else joinRow vs e := by
  unfold markFun
  by_cases h : e.vessel_id = vid
  · rw [if_pos h, if_pos h]
    unfold joinRow
    simp
  · rw [if_neg h, if_neg h]

lemma filterMap_join_map_mark (vs : List Vessel) (t : Int) (vid : Nat)
    (q : List QueueEntry) :
    (q.map (markFun t vid)).filterMap (joinRow vs) =
      (q.filterMap (joinRow vs)).filter (fun r => !decide (r.vessel_id = vid)) := by
  induction q with
  | nil => rfl
  | cons e q ih =>
    simp only [List.map_cons, List.filterMap_cons]
    rw [joinRow_markFun]
    by_cases h : e.vessel_id = vid
    · rw [if_pos h]
      cases hj : joinRow vs e with
      | none => simpa using ih
      | some r =>
        have hr : r.vessel_id = vid := (joinRow_vid hj).trans h
        simp [List.filter_cons, hr, ih]
    · rw [if_neg h]
      cases hj : joinRow vs e with
      | none => simpa using ih
      | some r =>
        have hr : ¬ r.vessel_id = vid := by rw [joinRow_vid hj]; exact h
        simp [List.filter_cons, hr, ih]

lemma joinWaiting_applyBinding (now : Int) (dur : Nat) (bid : Nat) (m : QRow)
    (s : SimState) :
    joinWaiting (applyBinding now dur bid m s) =
      (joinWaiting s).filter (fun r => !decide (r.vessel_id = m.vessel_id)) := by
  unfold joinWaiting applyBinding
  exact filterMap_join_map_mark s.vessels now m.vessel_id s.queue

lemma join_vids_sublist (vs : List Vessel) (q : List QueueEntry) :
    List.Sublist ((q.filterMap (joinRow vs)).map (fun r => r.vessel_id))
      (q.map (fun e => e.vessel_id)) := by
  induction q with
  | nil => simp
  | cons e q ih =>
    simp only [List.filterMap_cons, List.map_cons]
    cases hj : joinRow vs e with
    | none => exact ih.cons e.vessel_id
    | some r =>
      rw [List.map_cons, joinRow_vid hj]
      exact ih.cons₂ e.vessel_id

lemma joinWaiting_nodup (s : SimState)
    (h : (s.queue.map (fun e => e.vessel_id)).Nodup) :
    ((joinWaiting s).map (fun r => r.vessel_id)).Nodup :=
  h.sublist (join_vids_sublist s.vessels s.queue)

lemma join_length (vs : List Vessel) (q : List QueueEntry)
    (h : ∀ e ∈ q, ∃ v ∈ vs, v.vessel_id = e.vessel_id) :
    (q.filterMap (joinRow vs)).length = q.countP isWaiting := by
  induction q with
  | nil => rfl
  | cons e q ih =>
    have ih' := ih (fun x hx => h x (List.mem_cons_of_mem e hx))
    simp only [List.filterMap_cons, List.countP_cons]
    by_cases hw : e.status = QueueStatus.waiting
    · obtain ⟨v, hv, hvid⟩ := h e (List.mem_cons_self e q)
      cases hf : vs.find? (fun x => decide (x.vessel_id = e.vessel_id)) with
      | none =>
        exfalso
        have := List.find?_eq_none.mp hf v hv
        simp [hvid] at this
      | some v' =>
        have hj : joinRow vs e =
            some ⟨e.vessel_id, v'.priority, v'.estimated_duration, e.arrival_time⟩ := by
          unfold joinRow
          rw [if_pos hw, hf]
          rfl
        rw [hj]
        simp [isWaiting, hw, ih']
    · have hj : joinRow vs e = none := by
        unfold joinRow
        rw [if_neg hw]
      rw [hj]
      simp [isWaiting, hw, ih']

/-! ### The cumulative effect of the allocation loop on each table -/

/-- Cumulative berth updates of an allocation pass, per row. -/
def occFold (now : Int) (bids : List Nat) (b : Berth) : Berth :=
  bids.foldl (fun acc bid => occFun now bid acc) b

/-- Cumulative queue updates of an allocation pass, per row. -/
def markFold (now : Int) (vids : List Nat) (e : QueueEntry) : QueueEntry :=
  vids.foldl (fun acc vid => markFun now vid acc) e

/-- The operations rows inserted for a selection log, with consecutive ids. -/
def opsOfLog (oid : Nat) (now : Int) (dur : Nat) : List (Nat × QRow) → List Operation
  | [] => []
  | (bid, m) :: rest => mkOp oid now dur bid m :: opsOfLog (oid + 1) now dur rest

lemma occFun_berth_id (now : Int) (bid : Nat) (b : Berth) :
    (occFun now bid b).berth_id = b.berth_id := by
  unfold occFun; split <;> rfl

lemma markFun_vessel_id (now : Int) (vid : Nat) (e : QueueEntry) :
    (markFun now vid e).vessel_id = e.vessel_id := by
  unfold markFun; split <;> rfl

lemma occFold_berth_id (now : Int) (bids : List Nat) (b : Berth) :
    (occFold now bids b).berth_id = b.berth_id := by
  induction bids generalizing b with
  | nil => rfl
  | cons bid bids ih =>
    unfold occFold at *
    rw [List.foldl_cons, ih, occFun_berth_id]

lemma markFold_vessel_id (now : Int) (vids : List Nat) (e : QueueEntry) :
    (markFold now vids e).vessel_id = e.vessel_id := by
  induction vids generalizing e with
  | nil => rfl
  | cons vid vids ih =>
    unfold markFold at *
    rw [List.foldl_cons, ih, markFun_vessel_id]

lemma occFold_id (now : Int) (bids : List Nat) (b : Berth)
    (h : b.berth_id ∉ bids) : occFold now bids b = b := by
  induction bids with
  | nil => rfl
  | cons bid bids ih =>
    unfold occFold at *
    rw [List.foldl_cons]
    have h1 : ¬ b.berth_id = bid := fun hc => h (hc ▸ List.mem_cons_self bid bids)
    rw [show occFun now bid b = b by unfold occFun; rw [if_neg h1]]
    exact ih (fun hc => h (List.mem_cons_of_mem bid hc))

lemma markFold_id (now : Int) (vids : List Nat) (e : QueueEntry)
    (h : e.vessel_id ∉ vids) : markFold now vids e = e := by
  induction vids with
  | nil => rfl
  | cons vid vids ih =>
    unfold markFold at *
    rw [List.foldl_cons]
    have h1 : ¬ e.vessel_id = vid := fun hc => h (hc ▸ List.mem_cons_self vid vids)
    rw [show markFun now vid e = e by unfold markFun; rw [if_neg h1]]
    exact ih (fun hc => h (List.mem_cons_of_mem vid hc))

lemma occFold_cons (now : Int) (bid : Nat) (bids : List Nat) (b : Berth) :
    occFold now (bid :: bids) b = occFold now bids (occFun now bid b) := rfl

lemma markFold_cons (now : Int) (vid : Nat) (vids : List Nat) (e : QueueEntry) :
    markFold now (vid :: vids) e = markFold now vids (markFun now vid e) := rfl

lemma occFold_occupied (now : Int) (bids : List Nat) (b : Berth)
    (h : b.berth_id ∈ bids) : (occFold now bids b).status = BerthStatus.occupied := by
  induction bids generalizing b with
  | nil => cases h
  | cons bid bids ih =>
    rw [occFold_cons]
    rcases List.mem_cons.mp h with hb | hb
    · rw [show occFun now bid b = { b with status := BerthStatus.occupied, updated_at := now }
        by unfold occFun; rw [if_pos hb]]
      by_cases hmem :
          ({ b with status := BerthStatus.occupied, updated_at := now } : Berth).berth_id ∈ bids
      · exact ih _ hmem
      · rw [occFold_id now bids _ hmem]
    · have hm : (occFun now bid b).berth_id ∈ bids := by rw [occFun_berth_id]; exact hb
      exact ih _ hm

lemma markFold_marked (now : Int) (vids : List Nat) (e : QueueEntry)
    (h : e.vessel_id ∈ vids) :
    (markFold now vids e).status = QueueStatus.in_service ∧
      (markFold now vids e).start_service_time = some now := by
  induction vids generalizing e with
  | nil => cases h
  | cons vid vids ih =>
    rw [markFold_cons]
    rcases List.mem_cons.mp h with hb | hb
    · rw [show markFun now vid e =
          { e with status := QueueStatus.in_service, start_service_time := some now }
        by unfold markFun; rw [if_pos hb]]
      by_cases hmem : ({ e with status := QueueStatus.in_service, start_service_time := some now } : QueueEntry).vessel_id ∈ vids
      · exact ih _ hmem
      · rw [markFold_id now vids _ hmem]
        exact ⟨rfl, rfl⟩
    · have hm : (markFun now vid e).vessel_id ∈ vids := by rw [markFun_vessel_id]; exact hb
      exact ih _ hm

lemma opsOfLog_length (oid : Nat) (now : Int) (dur : Nat) (log : List (Nat × QRow)) :
    (opsOfLog oid now dur log).length = log.length := by
  induction log generalizing oid with
  | nil => rfl
  | cons p rest ih =>
    cases p with
    | mk bid m => simp [opsOfLog, ih]

lemma opsOfLog_berth_ids (oid : Nat) (now : Int) (dur : Nat) (log : List (Nat × QRow)) :
    (opsOfLog oid now dur log).map (fun o => o.berth_id) = log.map Prod.fst := by
  induction log generalizing oid with
  | nil => rfl
  | cons p rest ih =>
    cases p with
    | mk bid m => simp [opsOfLog, mkOp, ih]

lemma opsOfLog_vessel_ids (oid : Nat) (now : Int) (dur : Nat) (log : List (Nat × QRow)) :
    (opsOfLog oid now dur log).map (fun o => o.vessel_id) =
      log.map (fun p => p.2.vessel_id) := by
  induction log generalizing oid with
  | nil => rfl
  | cons p rest ih =>
    cases p with
    | mk bid m => simp [opsOfLog, mkOp, ih]

lemma allocLoop_fields (now : Int) (dur : Nat) (L : List Nat) (s : SimState) :
    (allocLoop now dur L s).1.berths =
        s.berths.map (occFold now ((allocLoop now dur L s).2.map Prod.fst)) ∧
    (allocLoop now dur L s).1.queue =
        s.queue.map (markFold now ((allocLoop now dur L s).2.map (fun p => p.2.vessel_id))) ∧
    (allocLoop now dur L s).1.operations =
        s.operations ++ opsOfLog s.next_operation_id now dur (allocLoop now dur L s).2 ∧
    (allocLoop now dur L s).1.vessels = s.vessels := by
  induction L generalizing s with
  | nil =>
    refine ⟨?_, ?_, ?_, rfl⟩
    · show s.berths = s.berths.map (occFold now [])
      rw [show occFold now [] = fun b => b from rfl, List.map_id']
    · show s.queue = s.queue.map (markFold now [])
      rw [show markFold now [] = fun e => e from rfl, List.map_id']
    · show s.operations = s.operations ++ opsOfLog s.next_operation_id now dur []
      rw [show opsOfLog s.next_operation_id now dur [] = [] from rfl, List.append_nil]
  | cons bid rest ih =>
    unfold allocLoop
    cases h : selectHead (joinWaiting s) with
    | none => exact ih s
    | some m =>
      obtain ⟨ihb, ihq, iho, ihv⟩ := ih (applyBinding now dur bid m s)
      simp only
      refine ⟨?_, ?_, ?_, ihv⟩
      · rw [ihb]
        show (s.berths.map (occFun now bid)).map _ = _
        rw [List.map_map]
        rfl
      · rw [ihq]
        show (s.queue.map (markFun now m.vessel_id)).map _ = _
        rw [List.map_map]
        rfl
      · rw [iho]
        show (s.operations ++ [mkOp s.next_operation_id now dur bid m]) ++ _ = _
        rw [List.append_assoc]
        rfl

/-! ### Order and disjointness of the selections of one allocation pass -/

lemma allocLoop_order (now : Int) (dur : Nat) (L : List Nat) (s : SimState) :
    (∀ p ∈ (allocLoop now dur L s).2, p.2 ∈ joinWaiting s) ∧
    joinWaiting (allocLoop now dur L s).1 =
      (joinWaiting s).filter
        (fun r => !decide (r.vessel_id ∈ (allocLoop now dur L s).2.map (fun p => p.2.vessel_id))) ∧
    List.Pairwise rowLe ((allocLoop now dur L s).2.map Prod.snd) ∧
    (∀ p ∈ (allocLoop now dur L s).2, ∀ r ∈ joinWaiting (allocLoop now dur L s).1, rowLe p.2 r) ∧
    ((allocLoop now dur L s).2.map (fun p => p.2.vessel_id)).Nodup := by
  induction L generalizing s with
  | nil =>
    refine ⟨by simp [allocLoop], ?_, by simp [allocLoop], by simp [allocLoop], by simp [allocLoop]⟩
    show joinWaiting s = (joinWaiting s).filter _
    rw [show (allocLoop now dur [] s).2 = [] from rfl]
    simp
  | cons bid rest ih =>
    unfold allocLoop
    cases h : selectHead (joinWaiting s) with
    | none => exact ih s
    | some m =>
      simp only
      obtain ⟨ih1, ih2, ih3, ih4, ih5⟩ := ih (applyBinding now dur bid m s)
      have hjoin1 := joinWaiting_applyBinding now dur bid m s
      have hmem : m ∈ joinWaiting s := selectHead_mem h
      have hmin : ∀ x ∈ joinWaiting s, rowLe m x := selectHead_min h
      have hsub1 : ∀ r ∈ joinWaiting (applyBinding now dur bid m s), r ∈ joinWaiting s := by
        intro r hr
        rw [hjoin1] at hr
        exact (List.mem_filter.mp hr).1
      have hne1 : ∀ r ∈ joinWaiting (applyBinding now dur bid m s),
          ¬ r.vessel_id = m.vessel_id := by
        intro r hr
        rw [hjoin1] at hr
        have := (List.mem_filter.mp hr).2
        simpa using this
      refine ⟨?_, ?_, ?_, ?_, ?_⟩
      · intro p hp
        rcases List.mem_cons.mp hp with rfl | hp'
        · exact hmem
        · exact hsub1 _ (ih1 p hp')
      · rw [ih2, hjoin1, List.filter_filter]
        apply List.filter_congr
        intro r hr
        by_cases h1 : r.vessel_id = m.vessel_id <;>
          by_cases h2 : r.vessel_id ∈ (allocLoop now dur rest (applyBinding now dur bid m s)).2.map (fun p => p.2.vessel_id) <;>
          simp [h1, h2, List.mem_cons]
      · rw [List.map_cons, List.pairwise_cons]
        constructor
        · intro x hx
          obtain ⟨p, hp, rfl⟩ := List.mem_map.mp hx
          exact hmin _ (hsub1 _ (ih1 p hp))
        · exact ih3
      · intro p hp r hr
        rcases List.mem_cons.mp hp with rfl | hp'
        · have hr1 : r ∈ joinWaiting (applyBinding now dur bid m s) := by
            rw [ih2] at hr
            exact (List.mem_filter.mp hr).1
          exact hmin _ (hsub1 _ hr1)
        · exact ih4 p hp' r hr
      · rw [List.map_cons, List.nodup_cons]
        constructor
        · intro hc
          obtain ⟨p, hp, hpv⟩ := List.mem_map.mp hc
          exact hne1 _ (ih1 p hp) hpv
        · exact ih5

/-! ### Counting the transitions of one allocation pass -/

lemma inService_mark_step (q : List QueueEntry) (t : Int) (v : Nat)
    (hq : (q.map (fun e => e.vessel_id)).Nodup)
    (e0 : QueueEntry) (h0 : e0 ∈ q) (hv : e0.vessel_id = v)
    (hw : e0.status = QueueStatus.waiting) :
    (q.map (markFun t v)).countP isInService = q.countP isInService + 1 := by
  rw [List.countP_map]
  have hpt : ∀ e ∈ q,
      (isInService ∘ markFun t v) e = (decide (e.vessel_id = v) || isInService e) := by
    intro e _
    show isInService (markFun t v e) = _
    unfold markFun
    by_cases h : e.vessel_id = v
    · rw [if_pos h]
      simp [isInService, h]
    · rw [if_neg h]
      simp [h]
  rw [countP_congr_mem q _ _ hpt]
  have hdisj : ∀ e ∈ q,
      ¬((decide (e.vessel_id = v)) = true ∧ isInService e = true) := by
    rintro e he ⟨h1, h2⟩
    rw [decide_eq_true_eq] at h1
    have : e = e0 := eq_of_nodup_map_eq hq he h0 (h1.trans hv.symm)
    rw [this] at h2
    rw [isInService, hw] at h2
    simp at h2
  rw [countP_or_disjoint q _ _ hdisj]
  have h1 : q.countP (fun e => decide (e.vessel_id = v)) = 1 := by
    have h2 := countP_eq_one_of_nodup_map q (fun e => e.vessel_id) hq e0 h0
    simpa [hv] using h2
  omega

lemma applyBinding_queue_nodup (now : Int) (dur : Nat) (bid : Nat) (m : QRow)
    (s : SimState) (hq : (s.queue.map (fun e => e.vessel_id)).Nodup) :
    ((applyBinding now dur bid m s).queue.map (fun e => e.vessel_id)).Nodup := by
  show ((s.queue.map (markFun now m.vessel_id)).map (fun e => e.vessel_id)).Nodup
  rw [List.map_map]
  have : ((fun e : QueueEntry => e.vessel_id) ∘ markFun now m.vessel_id) =
      fun e : QueueEntry => e.vessel_id := by
    funext e
    exact markFun_vessel_id now m.vessel_id e
  rw [this]
  exact hq

lemma countP_not_add {α : Type} (l : List α) (p : α → Bool) :
    l.countP (fun x => !p x) + l.countP p = l.length := by
  induction l with
  | nil => rfl
  | cons a l ih =>
    rw [List.countP_cons, List.countP_cons]
    by_cases h : p a = true <;> simp [h] <;> omega

lemma filter_ne_length {l : List QRow} (hn : (l.map (fun r => r.vessel_id)).Nodup)
    {m : QRow} (hm : m ∈ l) :
    (l.filter (fun r => !decide (r.vessel_id = m.vessel_id))).length = l.length - 1 := by
  rw [← List.countP_eq_length_filter]
  have hone : l.countP (fun r => decide (r.vessel_id = m.vessel_id)) = 1 := by
    have h2 := countP_eq_one_of_nodup_map l (fun r => r.vessel_id) hn m hm
    simpa using h2
  have hsplit := countP_not_add l (fun r => decide (r.vessel_id = m.vessel_id))
  omega

lemma allocLoop_exact (now : Int) (dur : Nat) (L : List Nat) (s : SimState)
    (hq : (s.queue.map (fun e => e.vessel_id)).Nodup)
    (hlen : L.length ≤ (joinWaiting s).length) :
    (allocLoop now dur L s).2.map Prod.fst = L ∧
    (joinWaiting (allocLoop now dur L s).1).length = (joinWaiting s).length - L.length ∧
    (allocLoop now dur L s).1.queue.countP isInService =
      s.queue.countP isInService + L.length := by
  induction L generalizing s with
  | nil => exact ⟨rfl, by simp [allocLoop], by simp [allocLoop]⟩
  | cons bid rest ih =>
    unfold allocLoop
    cases h : selectHead (joinWaiting s) with
    | none =>
      exfalso
      rw [selectHead_none h] at hlen
      simp at hlen
    | some m =>
      simp only
      have hmem : m ∈ joinWaiting s := selectHead_mem h
      have hjoin1 := joinWaiting_applyBinding now dur bid m s
      have hjnodup : ((joinWaiting s).map (fun r => r.vessel_id)).Nodup :=
        joinWaiting_nodup s hq
      have hlen1 : (joinWaiting (applyBinding now dur bid m s)).length =
          (joinWaiting s).length - 1 := by
        rw [hjoin1]
        exact filter_ne_length hjnodup hmem
      have hq1 := applyBinding_queue_nodup now dur bid m s hq
      have hrest : rest.length ≤ (joinWaiting (applyBinding now dur bid m s)).length := by
        rw [hlen1]
        have := hlen
        simp only [List.length_cons] at this
        omega
      obtain ⟨ihA, ihB, ihC⟩ := ih (applyBinding now dur bid m s) hq1 hrest
      obtain ⟨e0, he0, hw0, hv0⟩ := mem_joinWaiting hmem
      have hstep : (applyBinding now dur bid m s).queue.countP isInService =
          s.queue.countP isInService + 1 :=
        inService_mark_step s.queue now m.vessel_id hq e0 he0 hv0 hw0
      refine ⟨?_, ?_, ?_⟩
      · rw [List.map_cons, ihA]
      · rw [ihB, hlen1]
        simp only [List.length_cons]
        have := hlen
        simp only [List.length_cons] at this
        omega
      · rw [ihC, hstep]
        simp only [List.length_cons]
        omega

/-! ### The cumulative effect of the finalization pass on each table -/

/-- Cumulative operation updates of one finalization pass, per row. -/
def finOpsFold (now : Int) (C : List Operation) (o : Operation) : Operation :=
  C.foldl (fun acc c => finOpFun now c acc) o

/-- Cumulative berth updates of one finalization pass, per row. -/
def finBerthsFold (now : Int) (C : List Operation) (b : Berth) : Berth :=
  C.foldl (fun acc c => freeBerthFun now c.berth_id acc) b

/-- Cumulative queue updates of one finalization pass, per row. -/
def finQueueFold (now : Int) (C : List Operation) (e : QueueEntry) : QueueEntry :=
  C.foldl (fun acc c => finQueueFun now c.vessel_id acc) e

lemma finalize_fold_fields (now : Int) (C : List Operation) (s : SimState) :
    (C.foldl (finalizeOne now) s).operations = s.operations.map (finOpsFold now C) ∧
    (C.foldl (finalizeOne now) s).berths = s.berths.map (finBerthsFold now C) ∧
    (C.foldl (finalizeOne now) s).queue = s.queue.map (finQueueFold now C) := by
  induction C generalizing s with
  | nil =>
    refine ⟨?_, ?_, ?_⟩
    · show s.operations = s.operations.map (finOpsFold now [])
      rw [show finOpsFold now [] = fun o => o from rfl, List.map_id']
    · show s.berths = s.berths.map (finBerthsFold now [])
      rw [show finBerthsFold now [] = fun b => b from rfl, List.map_id']
    · show s.queue = s.queue.map (finQueueFold now [])
      rw [show finQueueFold now [] = fun e => e from rfl, List.map_id']
  | cons c C ih =>
    obtain ⟨iho, ihb, ihq⟩ := ih (finalizeOne now s c)
    rw [List.foldl_cons]
    refine ⟨?_, ?_, ?_⟩
    · rw [iho]
      show (s.operations.map (finOpFun now c)).map _ = _
      rw [List.map_map]
      rfl
    · rw [ihb]
      show (s.berths.map (freeBerthFun now c.berth_id)).map _ = _
      rw [List.map_map]
      rfl
    · rw [ihq]
      show (s.queue.map (finQueueFun now c.vessel_id)).map _ = _
      rw [List.map_map]
      rfl

lemma finOpFun_operation_id (now : Int) (c o : Operation) :
    (finOpFun now c o).operation_id = o.operation_id := by
  unfold finOpFun; split <;> rfl

lemma finOpsFold_operation_id (now : Int) (C : List Operation) (o : Operation) :
    (finOpsFold now C o).operation_id = o.operation_id := by
  induction C generalizing o with
  | nil => rfl
  | cons c C ih =>
    show (finOpsFold now C (finOpFun now c o)).operation_id = _
    rw [ih, finOpFun_operation_id]

lemma finOpsFold_id (now : Int) (C : List Operation) (o : Operation)
    (h : ∀ c ∈ C, c.operation_id ≠ o.operation_id) : finOpsFold now C o = o := by
  induction C with
  | nil => rfl
  | cons c C ih =>
    show finOpsFold now C (finOpFun now c o) = o
    have h1 : ¬ o.operation_id = c.operation_id :=
      fun hc => h c (List.mem_cons_self c C) hc.symm
    rw [show finOpFun now c o = o by unfold finOpFun; rw [if_neg h1]]
    exact ih (fun x hx => h x (List.mem_cons_of_mem c hx))

lemma finOpsFold_completes (now : Int) (C : List Operation)
    (hC : (C.map (fun c => c.operation_id)).Nodup)
    (o : Operation) (ho : o ∈ C) (x : Operation) (hx : x.operation_id = o.operation_id) :
    (finOpsFold now C x).status = OpStatus.completed ∧
      (finOpsFold now C x).actual_duration = some (now - o.start_time) := by
  induction C generalizing x with
  | nil => cases ho
  | cons c C ih =>
    rw [List.map_cons, List.nodup_cons] at hC
    show (finOpsFold now C (finOpFun now c x)).status = _ ∧
      (finOpsFold now C (finOpFun now c x)).actual_duration = _
    rcases List.mem_cons.mp ho with hoc | ho'
    · have hxo : x.operation_id = c.operation_id := by rw [hx, hoc]
      rw [show finOpFun now c x = { x with status := OpStatus.completed, actual_duration := some (now - c.start_time) } by unfold finOpFun; rw [if_pos hxo]]
      have hnot : ∀ c2 ∈ C, c2.operation_id ≠
          ({ x with status := OpStatus.completed, actual_duration := some (now - c.start_time) } : Operation).operation_id := by
        intro c2 hc2 hcon
        apply hC.1
        have h2 : c2.operation_id = c.operation_id := by
          have hred : ({ x with status := OpStatus.completed, actual_duration := some (now - c.start_time) } : Operation).operation_id = x.operation_id := rfl
          rw [hred] at hcon
          rw [hcon, hxo]
        exact h2 ▸ List.mem_map_of_mem (fun c => c.operation_id) hc2
      rw [finOpsFold_id now C _ hnot]
      constructor
      · rfl
      · show some (now - c.start_time) = some (now - o.start_time)
        rw [hoc]
    · have hne : ¬ x.operation_id = c.operation_id := by
        intro hcon
        apply hC.1
        have h2 : o.operation_id = c.operation_id := hx ▸ hcon
        exact h2 ▸ List.mem_map_of_mem (fun c => c.operation_id) ho'
      rw [show finOpFun now c x = x by unfold finOpFun; rw [if_neg hne]]
      exact ih hC.2 ho' x hx

lemma freeBerthFun_berth_id (now : Int) (bid : Nat) (b : Berth) :
    (freeBerthFun now bid b).berth_id = b.berth_id := by
  unfold freeBerthFun; split <;> rfl

lemma finBerthsFold_berth_id (now : Int) (C : List Operation) (b : Berth) :
    (finBerthsFold now C b).berth_id = b.berth_id := by
  induction C generalizing b with
  | nil => rfl
  | cons c C ih =>
    show (finBerthsFold now C (freeBerthFun now c.berth_id b)).berth_id = _
    rw [ih, freeBerthFun_berth_id]

lemma finBerthsFold_avail_inv (now : Int) (C : List Operation) (b : Berth)
    (h : b.status = BerthStatus.available) :
    (finBerthsFold now C b).status = BerthStatus.available := by
  induction C generalizing b with
  | nil => exact h
  | cons c C ih =>
    show (finBerthsFold now C (freeBerthFun now c.berth_id b)).status = _
    apply ih
    unfold freeBerthFun
    split
    · rfl
    · exact h

lemma finBerthsFold_frees (now : Int) (C : List Operation) (b : Berth)
    (h : ∃ c ∈ C, c.berth_id = b.berth_id) :
    (finBerthsFold now C b).status = BerthStatus.available := by
  induction C generalizing b with
  | nil => obtain ⟨c, hc, -⟩ := h; cases hc
  | cons c C ih =>
    show (finBerthsFold now C (freeBerthFun now c.berth_id b)).status = _
    obtain ⟨c0, hc0, hbid⟩ := h
    rcases List.mem_cons.mp hc0 with rfl | hc0'
    · have hb : b.berth_id = c0.berth_id := hbid.symm
      rw [show freeBerthFun now c0.berth_id b =
          { b with status := BerthStatus.available, updated_at := now }
        by unfold freeBerthFun; rw [if_pos hb]]
      exact finBerthsFold_avail_inv now C _ rfl
    · apply ih
      refine ⟨c0, hc0', ?_⟩
      rw [freeBerthFun_berth_id]
      exact hbid

lemma finQueueFun_vessel_id (now : Int) (vid : Nat) (e : QueueEntry) :
    (finQueueFun now vid e).vessel_id = e.vessel_id := by
  unfold finQueueFun; split <;> rfl

lemma finQueueFold_vessel_id (now : Int) (C : List Operation) (e : QueueEntry) :
    (finQueueFold now C e).vessel_id = e.vessel_id := by
  induction C generalizing e with
  | nil => rfl
  | cons c C ih =>
    show (finQueueFold now C (finQueueFun now c.vessel_id e)).vessel_id = _
    rw [ih, finQueueFun_vessel_id]

lemma finQueueFold_done_inv (now : Int) (C : List Operation) (e : QueueEntry)
    (h : e.status = QueueStatus.completed ∧ e.end_service_time = some now) :
    (finQueueFold now C e).status = QueueStatus.completed ∧
      (finQueueFold now C e).end_service_time = some now := by
  induction C generalizing e with
  | nil => exact h
  | cons c C ih =>
    show (finQueueFold now C (finQueueFun now c.vessel_id e)).status = _ ∧ _
    apply ih
    unfold finQueueFun
    split
    · exact ⟨rfl, rfl⟩
    · exact h

lemma finQueueFold_completes (now : Int) (C : List Operation) (e : QueueEntry)
    (h : ∃ c ∈ C, c.vessel_id = e.vessel_id) :
    (finQueueFold now C e).status = QueueStatus.completed ∧
      (finQueueFold now C e).end_service_time = some now := by
  induction C generalizing e with
  | nil => obtain ⟨c, hc, -⟩ := h; cases hc
  | cons c C ih =>
    show (finQueueFold now C (finQueueFun now c.vessel_id e)).status = QueueStatus.completed ∧
      (finQueueFold now C (finQueueFun now c.vessel_id e)).end_service_time = some now
    obtain ⟨c0, hc0, hvid⟩ := h
    rcases List.mem_cons.mp hc0 with rfl | hc0'
    · have he : e.vessel_id = c0.vessel_id := hvid.symm
      rw [show finQueueFun now c0.vessel_id e =
          { e with status := QueueStatus.completed, end_service_time := some now }
        by unfold finQueueFun; rw [if_pos he]]
      exact finQueueFold_done_inv now C
        { e with status := QueueStatus.completed, end_service_time := some now } ⟨rfl, rfl⟩
    · apply ih
      refine ⟨c0, hc0', ?_⟩
      rw [finQueueFun_vessel_id]
      exact hvid

/-! ### The write log replays to the direct allocation pass -/

lemma allocTx_coherent (now : Int) (dur : Nat) (L : List Nat) (s : SimState) :
    (allocTxLoop now dur L s).foldl applyWrite s = (allocLoop now dur L s).1 := by
  induction L generalizing s with
  | nil => rfl
  | cons bid rest ih =>
    unfold allocTxLoop allocLoop
    cases h : selectHead (joinWaiting s) with
    | none => exact ih s
    | some m =>
      simp only
      rw [List.foldl_append]
      have hfold :
          ([TxWrite.queueUpdate m.vessel_id now, TxWrite.berthUpdate bid now,
            TxWrite.opInsert (mkOp s.next_operation_id now dur bid m)].foldl applyWrite s) =
          applyBinding now dur bid m s := rfl
      rw [hfold]
      exact ih (applyBinding now dur bid m s)

/-! ### Concrete scenarios -/

/-- An empty port with a single available berth. -/
def c1_base : SimState :=
  { berths := [{ berth_id := 1, berth_number := 1, status := BerthStatus.available, start_maintenance := none, end_maintenance := none, updated_at := 0 }]
    vessels := []
    queue := []
    operations := []
    duration_seconds := 0
    next_vessel_id := 1
    next_operation_id := 1 }

/-- First generated ship: a Tanker (priority 3) with a 50 s estimated
duration, arrived 120 minutes ago. -/
def c1_shipA : ShipData := generate_ship_data 100000 1 2 5 0 0 0 115

/-- Second generated ship: a Cargueiro (priority 1) with a 100 s estimated
duration, arrived 5 minutes ago. -/
def c1_shipB : ShipData := generate_ship_data 100000 2 0 55 1 1 0 0

/-- The port after both ships have been inserted; the simulator attribute
`duration_seconds` now holds ship B's duration (100 s). -/
def c1_state : SimState := insert_vessel_to_db (insert_vessel_to_db c1_base c1_shipA) c1_shipB

/-- Claim C1: in the allocation step the created Operation's end timestamp
should equal `start + vessel.estimated_duration` and its
`planned_duration` should be copied from that vessel's estimate.  The
code instead uses the simulator attribute `self.duration_seconds`, which
holds the duration of the most recently *inserted* vessel: allocating
vessel 1 (estimated 50 s) right after vessel 2 (estimated 100 s) was
inserted produces an Operation with `planned_duration = 100` and
`end_time = start_time + 100`. -/
theorem alloc_planned_duration_stale :
    ∃ op ∈ (allocate_ships_to_berths 100500 c1_state).operations,
      op.vessel_id = 1 ∧ op.planned_duration = 100 ∧ op.end_time = op.start_time + 100 ∧
      ∃ v ∈ c1_state.vessels, v.vessel_id = 1 ∧ v.estimated_duration = 50 ∧
        ¬ op.planned_duration = v.estimated_duration ∧
        ¬ op.end_time = op.start_time + (v.estimated_duration : Int) := by
  decide

/-- Claim C2 counterexample: with both random draws firing, the tick body
of `simulate_real_time_data` does not execute the order asserted by the
specification (release-maintenance, finalize, allocate, start-maintenance,
spawn). -/
theorem tick_order_differs_from_spec :
    ¬ tick_step_order true true = spec_claimed_order := by decide

/-- Claim C2 (amended): the per-tick order is fixed as maybe-spawn-vessel,
then finalize-completed-operations, then release-maintenance, then
allocate, then maybe-start-maintenance; in every tick the finalize and
release-maintenance steps still run strictly before allocation. -/
theorem tick_order_fixed :
    (∀ d1 d2 : Bool,
      List.Sublist [TickStep.finalize_operations, TickStep.release_maintenance, TickStep.allocate]
        (tick_step_order d1 d2)) ∧
    tick_step_order true true =
      [TickStep.spawn_vessel, TickStep.finalize_operations, TickStep.release_maintenance,
       TickStep.allocate, TickStep.start_maintenance] ∧
    tick_step_order false false =
      [TickStep.finalize_operations, TickStep.release_maintenance, TickStep.allocate] := by
  decide

/-- Claim C3: over M simultaneously free berths and N >= M waiting
entries, one allocation pass puts exactly M entries in service, never
binds two entries to the same berth, never references one queue entry
from two of the created operations, and only binds berths that were
available when the pass scanned them. -/
theorem alloc_no_double_allocation (now : Int) (s : SimState)
    (hq : (s.queue.map (fun e => e.vessel_id)).Nodup)
    (hb : (s.berths.map (fun b => b.berth_id)).Nodup)
    (hvx : ∀ e ∈ s.queue, ∃ v ∈ s.vessels, v.vessel_id = e.vessel_id)
    (hMN : availableCount s ≤ waitingCount s) :
    inServiceCount (allocate_ships_to_berths now s) = inServiceCount s + availableCount s ∧
    (newOperations now s).length = availableCount s ∧
    ((newOperations now s).map (fun o => o.berth_id)).Nodup ∧
    ((newOperations now s).map (fun o => o.vessel_id)).Nodup ∧
    ∀ o ∈ newOperations now s,
      ∃ b ∈ s.berths, b.berth_id = o.berth_id ∧ b.status = BerthStatus.available := by
  by_cases h0 : waitingCount s = 0
  · have hM0 : availableCount s = 0 := by omega
    have hall : allocate_ships_to_berths now s = s := by
      unfold allocate_ships_to_berths allocate_pass
      rw [if_pos h0]
    have hnew : newOperations now s = [] := by
      unfold newOperations
      rw [hall]
      exact List.drop_length _
    rw [hall, hnew, hM0]
    refine ⟨by omega, rfl, List.nodup_nil, List.nodup_nil, ?_⟩
    intro o ho
    cases ho
  · have hlenL : (availableIds s).length = availableCount s := by
      unfold availableIds availableCount
      rw [List.length_map]
    have hjlen : (joinWaiting s).length = waitingCount s :=
      join_length s.vessels s.queue hvx
    have hlen : (availableIds s).length ≤ (joinWaiting s).length := by
      rw [hlenL, hjlen]
      exact hMN
    obtain ⟨hA, hB, hC⟩ := allocLoop_exact now s.duration_seconds (availableIds s) s hq hlen
    obtain ⟨h1, h2, h3, h4, h5⟩ := allocLoop_order now s.duration_seconds (availableIds s) s
    obtain ⟨hfb, hfq, hfo, hfv⟩ := allocLoop_fields now s.duration_seconds (availableIds s) s
    have hall : allocate_ships_to_berths now s =
        (allocLoop now s.duration_seconds (availableIds s) s).1 := by
      unfold allocate_ships_to_berths allocate_pass
      rw [if_neg h0]
    have hnew : newOperations now s = opsOfLog s.next_operation_id now s.duration_seconds
        (allocLoop now s.duration_seconds (availableIds s) s).2 := by
      unfold newOperations
      rw [hall, hfo]
      exact List.drop_left _ _
    have hloglen : (allocLoop now s.duration_seconds (availableIds s) s).2.length =
        (availableIds s).length := by
      have hlm := congrArg List.length hA
      rw [List.length_map] at hlm
      exact hlm
    refine ⟨?_, ?_, ?_, ?_, ?_⟩
    · show inServiceCount (allocate_ships_to_berths now s) = _
      rw [hall]
      unfold inServiceCount
      rw [hC, hlenL]
    · rw [hnew, opsOfLog_length, hloglen, hlenL]
    · rw [hnew, opsOfLog_berth_ids, hA]
      exact hb.sublist ((List.filter_sublist s.berths).map _)
    · rw [hnew, opsOfLog_vessel_ids]
      exact h5
    · intro o ho
      have hmm : o.berth_id ∈ (newOperations now s).map (fun o => o.berth_id) :=
        List.mem_map_of_mem _ ho
      rw [hnew, opsOfLog_berth_ids, hA] at hmm
      obtain ⟨b, hbmem, hbid⟩ := List.mem_map.mp hmm
      have hbf := List.mem_filter.mp hbmem
      refine ⟨b, hbf.1, hbid, ?_⟩
      have hav := hbf.2
      rw [isAvailable, decide_eq_true_eq] at hav
      exact hav

/-- Claim C4: the allocator serves Waiting candidates in the order
(priority descending, arrival ascending): the selections of one pass are
sorted by that order, and every selection precedes (in the order) every
candidate still waiting after the pass. -/
theorem alloc_priority_then_fcfs (now : Int) (s : SimState) :
    List.Pairwise rowLe ((allocate_pass now s).2.map Prod.snd) ∧
    ∀ p ∈ (allocate_pass now s).2,
      ∀ r ∈ joinWaiting (allocate_ships_to_berths now s), rowLe p.2 r := by
  unfold allocate_ships_to_berths allocate_pass
  by_cases h0 : waitingCount s = 0
  · rw [if_pos h0]
    exact ⟨List.Pairwise.nil, by intro p hp; cases hp⟩
  · rw [if_neg h0]
    obtain ⟨h1, h2, h3, h4, h5⟩ := allocLoop_order now s.duration_seconds (availableIds s) s
    exact ⟨h3, h4⟩

/-- Claim C7: the allocation pass is transactional.  Whatever the failure
flag, each binding of the pass is applied atomically: either the bound
berth is Occupied and the bound queue entry is InService in the resulting
state, or the whole state is unchanged (rollback); a failure never leaves
the berth Occupied with the entry still Waiting. -/
theorem alloc_binding_atomic (now : Int) (s : SimState) (failed : Bool) :
    ∀ p ∈ (allocate_pass now s).2,
      ((∀ b ∈ (run_transaction s (allocate_tx now s) failed).berths,
          b.berth_id = p.1 → b.status = BerthStatus.occupied) ∧
       (∀ e ∈ (run_transaction s (allocate_tx now s) failed).queue,
          e.vessel_id = p.2.vessel_id → e.status = QueueStatus.in_service)) ∨
      run_transaction s (allocate_tx now s) failed = s := by
  cases failed with
  | true =>
    intro p hp
    right
    rfl
  | false =>
    intro p hp
    by_cases h0 : waitingCount s = 0
    · right
      show (allocate_tx now s).foldl applyWrite s = s
      unfold allocate_tx
      rw [if_pos h0]
      rfl
    · left
      have hrun : run_transaction s (allocate_tx now s) false =
          (allocLoop now s.duration_seconds (availableIds s) s).1 := by
        show (allocate_tx now s).foldl applyWrite s = _
        unfold allocate_tx
        rw [if_neg h0]
        exact allocTx_coherent now s.duration_seconds (availableIds s) s
      have hp' : p ∈ (allocLoop now s.duration_seconds (availableIds s) s).2 := by
        have hpass : (allocate_pass now s).2 =
            (allocLoop now s.duration_seconds (availableIds s) s).2 := by
          unfold allocate_pass
          rw [if_neg h0]
        rw [hpass] at hp
        exact hp
      obtain ⟨hfb, hfq, hfo, hfv⟩ :=
        allocLoop_fields now s.duration_seconds (availableIds s) s
      rw [hrun]
      constructor
      · intro b hbm hbid
        rw [hfb] at hbm
        obtain ⟨b0, hb0, rfl⟩ := List.mem_map.mp hbm
        apply occFold_occupied
        have hb1 : b0.berth_id = p.1 := by
          rw [← occFold_berth_id now
            ((allocLoop now s.duration_seconds (availableIds s) s).2.map Prod.fst) b0]
          exact hbid
        rw [hb1]
        exact List.mem_map_of_mem Prod.fst hp'
      · intro e hem hvid
        rw [hfq] at hem
        obtain ⟨e0, he0, rfl⟩ := List.mem_map.mp hem
        have h1 : e0.vessel_id = p.2.vessel_id := by
          rw [← markFold_vessel_id now
            ((allocLoop now s.duration_seconds (availableIds s) s).2.map (fun p => p.2.vessel_id)) e0]
          exact hvid
        refine (markFold_marked now _ e0 ?_).1
        rw [h1]
        exact List.mem_map.mpr ⟨p, hp', rfl⟩

/-- A port with two Available berths, one Occupied berth, and three
Waiting vessels of priorities 1, 3, 1. -/
def wState : SimState :=
  { berths := [⟨1, 1, BerthStatus.available, none, none, 0⟩,
      ⟨2, 2, BerthStatus.available, none, none, 0⟩,
      ⟨3, 3, BerthStatus.occupied, none, none, 0⟩]
    vessels := [⟨1, "V1", "T", 1, 60⟩, ⟨2, "V2", "T", 3, 80⟩, ⟨3, "V3", "T", 1, 70⟩]
    queue := [⟨1, 100, QueueStatus.waiting, none, none⟩,
      ⟨2, 200, QueueStatus.waiting, none, none⟩,
      ⟨3, 50, QueueStatus.waiting, none, none⟩]
    operations := []
    duration_seconds := 90
    next_vessel_id := 4
    next_operation_id := 1 }

/-- Witness for claim C3 at the concrete scenario `wState`. -/
theorem alloc_no_double_allocation_witness :
    inServiceCount (allocate_ships_to_berths 500 wState) =
      inServiceCount wState + availableCount wState ∧
    (newOperations 500 wState).length = availableCount wState ∧
    ((newOperations 500 wState).map (fun o => o.berth_id)).Nodup ∧
    ((newOperations 500 wState).map (fun o => o.vessel_id)).Nodup ∧
    ∀ o ∈ newOperations 500 wState,
      ∃ b ∈ wState.berths, b.berth_id = o.berth_id ∧ b.status = BerthStatus.available :=
  alloc_no_double_allocation 500 wState (by decide) (by decide) (by decide) (by decide)

/-- Witness for claim C4 at `wState`: the equal-priority vessel that
arrived at time 50 is served before the one that arrived at time 100. -/
theorem alloc_priority_then_fcfs_witness :
    rowLe ⟨3, 1, 70, 50⟩ ⟨1, 1, 60, 100⟩ :=
  (alloc_priority_then_fcfs 500 wState).2 (2, ⟨3, 1, 70, 50⟩) (by decide)
    ⟨1, 1, 60, 100⟩ (by decide)

/-- Witness for claim C7 at `wState` with a committing transaction. -/
theorem alloc_binding_atomic_witness :
    ((∀ b ∈ (run_transaction wState (allocate_tx 500 wState) false).berths,
        b.berth_id = 1 → b.status = BerthStatus.occupied) ∧
     (∀ e ∈ (run_transaction wState (allocate_tx 500 wState) false).queue,
        e.vessel_id = 2 → e.status = QueueStatus.in_service)) ∨
    run_transaction wState (allocate_tx 500 wState) false = wState :=
  alloc_binding_atomic 500 wState false (1, ⟨2, 3, 80, 200⟩) (by decide)

/-- Claim C5: every InProgress operation whose precomputed end timestamp
has been reached is finalized by the next `update_ongoing_operations`
pass: the operation becomes Completed with
`actual_duration = now - start`, its queue entry becomes Completed with
`end_service_time = now`, and its berth becomes Available. -/
theorem operation_finalization (now : Int) (s : SimState)
    (hnodup : (s.operations.map (fun o => o.operation_id)).Nodup)
    (o : Operation) (ho : o ∈ s.operations)
    (hip : o.status = OpStatus.in_progress) (hend : o.end_time ≤ now) :
    (∀ o2 ∈ (update_ongoing_operations now s).operations,
        o2.operation_id = o.operation_id →
        o2.status = OpStatus.completed ∧ o2.actual_duration = some (now - o.start_time)) ∧
    (∀ e ∈ (update_ongoing_operations now s).queue,
        e.vessel_id = o.vessel_id →
        e.status = QueueStatus.completed ∧ e.end_service_time = some now) ∧
    (∀ b ∈ (update_ongoing_operations now s).berths,
        b.berth_id = o.berth_id → b.status = BerthStatus.available) := by
  have hoC : o ∈ dueOperations now s := by
    unfold dueOperations
    rw [List.mem_filter]
    exact ⟨ho, by rw [decide_eq_true_eq]; exact ⟨hip, hend⟩⟩
  have hCn : ((dueOperations now s).map (fun c => c.operation_id)).Nodup :=
    hnodup.sublist ((List.filter_sublist s.operations).map _)
  obtain ⟨hfo, hfb, hfq⟩ := finalize_fold_fields now (dueOperations now s) s
  have hupd : update_ongoing_operations now s =
      (dueOperations now s).foldl (finalizeOne now) s := rfl
  refine ⟨?_, ?_, ?_⟩
  · intro o2 h2 hid
    rw [hupd, hfo] at h2
    obtain ⟨x, hx, rfl⟩ := List.mem_map.mp h2
    have hxid : x.operation_id = o.operation_id := by
      rw [← finOpsFold_operation_id now (dueOperations now s) x]
      exact hid
    exact finOpsFold_completes now (dueOperations now s) hCn o hoC x hxid
  · intro e he hvid
    rw [hupd, hfq] at he
    obtain ⟨e0, he0, rfl⟩ := List.mem_map.mp he
    apply finQueueFold_completes
    refine ⟨o, hoC, ?_⟩
    have h1 : e0.vessel_id = o.vessel_id := by
      rw [← finQueueFold_vessel_id now (dueOperations now s) e0]
      exact hvid
    exact h1.symm
  · intro b hbm hbid
    rw [hupd, hfb] at hbm
    obtain ⟨b0, hb0, rfl⟩ := List.mem_map.mp hbm
    apply finBerthsFold_frees
    refine ⟨o, hoC, ?_⟩
    have h1 : b0.berth_id = o.berth_id := by
      rw [← finBerthsFold_berth_id now (dueOperations now s) b0]
      exact hbid
    exact h1.symm

/-- A port with one InProgress operation (start 10, planned 100,
end 110) on an occupied berth. -/
def c5_state : SimState :=
  { berths := [⟨1, 1, BerthStatus.occupied, none, none, 10⟩]
    vessels := [⟨1, "V1", "T", 2, 100⟩]
    queue := [⟨1, 0, QueueStatus.in_service, some 10, none⟩]
    operations := [⟨1, 1, 1, 10, 110, 100, OpStatus.in_progress, none⟩]
    duration_seconds := 100
    next_vessel_id := 2
    next_operation_id := 2 }

/-- Witness for claim C5 at `c5_state` with `now = 150 >= end = 110`. -/
theorem operation_finalization_witness :
    (∀ o2 ∈ (update_ongoing_operations 150 c5_state).operations,
        o2.operation_id = 1 →
        o2.status = OpStatus.completed ∧ o2.actual_duration = some 140) ∧
    (∀ e ∈ (update_ongoing_operations 150 c5_state).queue,
        e.vessel_id = 1 →
        e.status = QueueStatus.completed ∧ e.end_service_time = some 150) ∧
    (∀ b ∈ (update_ongoing_operations 150 c5_state).berths,
        b.berth_id = 1 → b.status = BerthStatus.available) :=
  operation_finalization 150 c5_state (by decide)
    ⟨1, 1, 1, 10, 110, 100, OpStatus.in_progress, none⟩ (by decide) (by decide) (by decide)

/-- Claim C6: the maintenance scheduler never touches a berth that is not
Available: whatever the random draws, every berth row whose status is
Occupied or Maintenance is left exactly as it was. -/
theorem maintenance_non_interruption (now : Int) (draw durDraw : Nat) (s : SimState)
    (i : Nat) (b : Berth) (hb : s.berths.get? i = some b)
    (hne : ¬ b.status = BerthStatus.available) :
    (simulate_maintenance_event now draw durDraw s).berths.get? i = some b := by
  simp only [simulate_maintenance_event]
  by_cases hemp : (s.berths.filter isAvailable).isEmpty = true
  · rw [if_pos hemp]
    exact hb
  · rw [if_neg hemp]
    show (s.berths.map _).get? i = some b
    rw [List.get?_map, hb, Option.map_some']
    have hcond : ¬(b.berth_id = ((s.berths.filter isAvailable).getD
        (draw % (s.berths.filter isAvailable).length) defaultBerth).berth_id ∧
        b.status = BerthStatus.available) := fun hc => hne hc.2
    rw [if_neg hcond]

/-- A port whose first berth is Occupied. -/
def c6_state : SimState :=
  { berths := [⟨7, 1, BerthStatus.occupied, none, none, 0⟩,
      ⟨8, 2, BerthStatus.available, none, none, 0⟩]
    vessels := []
    queue := []
    operations := []
    duration_seconds := 0
    next_vessel_id := 1
    next_operation_id := 1 }

/-- Witness for claim C6: the occupied berth of `c6_state` is untouched by
a maintenance event, whatever the draw. -/
theorem maintenance_non_interruption_witness :
    (simulate_maintenance_event 50 3 4 c6_state).berths.get? 0 =
      some ⟨7, 1, BerthStatus.occupied, none, none, 0⟩ :=
  maintenance_non_interruption 50 3 4 c6_state 0
    ⟨7, 1, BerthStatus.occupied, none, none, 0⟩ rfl (by decide)

/-- Claim C8: the efficiency metric is guarded: when
`actual_duration = 0` the division is not performed and the sentinel 0 is
reported instead. -/
theorem efficiency_zero_guard (p a : Nat) (h : a = 0) : op_efficiency p a = 0 := by
  subst h
  simp [op_efficiency]

/-- Witness for claim C8. -/
theorem efficiency_zero_guard_witness : op_efficiency 100 0 = 0 :=
  efficiency_zero_guard 100 0 rfl

lemma randint_bounds (lo hi d : Nat) (h : lo ≤ hi) :
    lo ≤ randint lo hi d ∧ randint lo hi d ≤ hi := by
  unfold randint
  have hm := Nat.mod_lt d (show 0 < hi + 1 - lo by omega)
  omega

lemma service_hours_lookup_le (t : String) :
    (service_hours_lookup t).1 ≤ (service_hours_lookup t).2 := by
  unfold service_hours_lookup
  cases h : SERVICE_HOURS.find? (fun r => decide (r.1 = t)) with
  | none => simp only [h]; omega
  | some r =>
    simp only [h]
    have hr := List.mem_of_find?_eq_some h
    fin_cases hr <;> decide

/-- Claim C9 counterexample: the simulator's generator draws the service
duration from the fixed range 45–120 s, not from a range keyed by the
vessel's type: a RoRo descriptor (table range 20–40) can carry duration
120, and the duration draw is identical for a Cargueiro descriptor. -/
theorem duration_not_keyed_by_type :
    (generate_ship_data 0 1 4 75 0 0 0 0).stype = "RoRo" ∧
    (generate_ship_data 0 1 4 75 0 0 0 0).service_duration = 120 ∧
    (∃ r ∈ ship_types, r.tname = "RoRo" ∧ r.dur_lo = 20 ∧ r.dur_hi = 40) ∧
    ¬((ship_types.getD 4 ⟨"Cargueiro", 1, 30, 60, "import"⟩).dur_lo ≤
        (generate_ship_data 0 1 4 75 0 0 0 0).service_duration ∧
      (generate_ship_data 0 1 4 75 0 0 0 0).service_duration ≤
        (ship_types.getD 4 ⟨"Cargueiro", 1, 30, 60, "import"⟩).dur_hi) ∧
    (generate_ship_data 0 1 0 75 0 0 0 0).service_duration =
      (generate_ship_data 0 1 4 75 0 0 0 0).service_duration := by
  decide

/-- Claim C9 (amended): every descriptor's priority comes from the
ordinal set {1, 2, 3} of the type table and its estimated duration from
the fixed bounded range 45–120 seconds, independent of the drawn type; the
separate helper of `grafana/vessel.py` does draw within its per-type
hour ranges. -/
theorem generator_bounds (now : Int)
    (counter typeDraw durDraw pfxDraw nameDraw customsDraw arrDraw : Nat) :
    (1 ≤ (generate_ship_data now counter typeDraw durDraw pfxDraw nameDraw customsDraw arrDraw).priority ∧
     (generate_ship_data now counter typeDraw durDraw pfxDraw nameDraw customsDraw arrDraw).priority ≤ 3) ∧
    (45 ≤ (generate_ship_data now counter typeDraw durDraw pfxDraw nameDraw customsDraw arrDraw).service_duration ∧
     (generate_ship_data now counter typeDraw durDraw pfxDraw nameDraw customsDraw arrDraw).service_duration ≤ 120) ∧
    (∀ typeDraw2 : Nat,
      (generate_ship_data now counter typeDraw2 durDraw pfxDraw nameDraw customsDraw arrDraw).service_duration =
      (generate_ship_data now counter typeDraw durDraw pfxDraw nameDraw customsDraw arrDraw).service_duration) ∧
    (∀ t : String, ∀ hdraw : Nat,
      (service_hours_lookup t).1 ≤ get_realistic_service_hours t hdraw ∧
      get_realistic_service_hours t hdraw ≤ (service_hours_lookup t).2) := by
  refine ⟨?_, ?_, fun typeDraw2 => rfl, fun t hdraw => ?_⟩
  · have hpr : (generate_ship_data now counter typeDraw durDraw pfxDraw nameDraw customsDraw arrDraw).priority =
        (ship_types.getD (typeDraw % ship_types.length) ⟨"Cargueiro", 1, 30, 60, "import"⟩).tpriority := rfl
    have hlt : typeDraw % ship_types.length < 6 := by
      have h6 : ship_types.length = 6 := rfl
      rw [h6]
      exact Nat.mod_lt _ (by omega)
    have hall : ∀ k, k < 6 →
        1 ≤ (ship_types.getD k ⟨"Cargueiro", 1, 30, 60, "import"⟩).tpriority ∧
        (ship_types.getD k ⟨"Cargueiro", 1, 30, 60, "import"⟩).tpriority ≤ 3 := by decide
    rw [hpr]
    exact hall _ hlt
  · have hsd : (generate_ship_data now counter typeDraw durDraw pfxDraw nameDraw customsDraw arrDraw).service_duration =
        randint 45 120 durDraw := rfl
    rw [hsd]
    exact randint_bounds 45 120 durDraw (by omega)
  · have hrs : get_realistic_service_hours t hdraw =
        randint (service_hours_lookup t).1 (service_hours_lookup t).2 hdraw := rfl
    rw [hrs]
    exact randint_bounds _ _ hdraw (service_hours_lookup_le t)

/-- Claim C10: every generated descriptor's arrival timestamp is
backdated by 5 to 120 minutes: it is strictly before the generation
instant, at least 300 s and at most 7200 s before it. -/
theorem arrival_backdated (now : Int)
    (counter typeDraw durDraw pfxDraw nameDraw customsDraw arrDraw : Nat) :
    (generate_ship_data now counter typeDraw durDraw pfxDraw nameDraw customsDraw arrDraw).arrival_time < now ∧
    now - 7200 ≤ (generate_ship_data now counter typeDraw durDraw pfxDraw nameDraw customsDraw arrDraw).arrival_time ∧
    (generate_ship_data now counter typeDraw durDraw pfxDraw nameDraw customsDraw arrDraw).arrival_time ≤ now - 300 := by
  have harr : (generate_ship_data now counter typeDraw durDraw pfxDraw nameDraw customsDraw arrDraw).arrival_time =
      now - 60 * (randint 5 120 arrDraw : Int) := rfl
  obtain ⟨h1, h2⟩ := randint_bounds 5 120 arrDraw (by omega)
  rw [harr]
  omega
